import Mathlib

/-!
Verification of `edb/server/buildmeta.py`: metadata accessor, pg_config path
resolution, directory hashing, the content-addressed data cache, and the
version model.  Python byte strings are modelled as `List Nat`, the relevant
slice of the filesystem as an association list from absolute path to file
contents, and the pickle module (an external collaborator of this module) as
an injective encoder with an explicit failure-aware decoder.
-/

/-- Python `bytes` values, one `Nat` per byte. -/
abbrev Bytes := List Nat

/-- A model of the Python objects that flow through the data cache.  `pickle`
is opaque to `buildmeta.py`; the cache works for any picklable object, so a
small representative universe (including `None`, which is also the function
fall-through value of `read_data_cache`) suffices. -/
inductive PyObj where
  | none
  | bytes (bs : Bytes)
  | nat (n : Nat)
  deriving DecidableEq, Repr

/-- Little-endian base-256 digits of a natural number. -/
def natToBytes : Nat → Bytes
  | 0 => []
  | n + 1 => (n + 1) % 256 :: natToBytes ((n + 1) / 256)
decreasing_by exact Nat.div_lt_self (Nat.succ_pos n) (by omega)

/-- Inverse of `natToBytes`. -/
def bytesToNat : Bytes → Nat
  | [] => 0
  | b :: rest => b + 256 * bytesToNat rest

theorem bytesToNat_natToBytes (n : Nat) : bytesToNat (natToBytes n) = n := by
  induction n using Nat.strong_induction_on with
  | _ n ih =>
    match n with
    | 0 => simp [natToBytes, bytesToNat]
    | m + 1 =>
      rw [natToBytes, bytesToNat,
        ih ((m + 1) / 256) (Nat.div_lt_self (Nat.succ_pos m) (by omega))]
      omega

/-- Model of `pickle.dumps` (external collaborator): a tagged injective
serialization of `PyObj`. -/
def dumps : PyObj → Bytes
  | PyObj.none => [0]
  | PyObj.bytes bs => 1 :: bs
  | PyObj.nat n => 2 :: natToBytes n

/-- Model of `pickle.loads`: decodes `dumps` output; any other byte string is
a deserialization failure (`Option.none`), mirroring the exception raised by
`pickle.loads` on malformed input. -/
def loads : Bytes → Option PyObj
  | [0] => some PyObj.none
  | 1 :: bs => some (PyObj.bytes bs)
  | 2 :: bs => some (PyObj.nat (bytesToNat bs))
  | _ => Option.none

theorem loads_dumps (o : PyObj) : loads (dumps o) = some o := by
  cases o with
  | none => rfl
  | bytes bs => rfl
  | nat n => simp [dumps, loads, bytesToNat_natToBytes]

/-- The slice of the filesystem the cache functions touch: an association
list from absolute path to regular-file contents (first binding wins). -/
abbrev FS := List (String × Bytes)

/-- `full_path.exists()` / `open(full_path, 'rb').read()` combined: the
contents of the file at `p`, or `Option.none` when no such file exists. -/
def lookupFS (fs : FS) (p : String) : Option Bytes :=
  (fs.find? (fun e => e.1 == p)).map Prod.snd

/-- Creating (or truncating) the file at `p` with contents `c`. -/
def setFile (fs : FS) (p : String) (c : Bytes) : FS :=
  (p, c) :: fs.filter (fun e => e.1 != p)

/-- `os.unlink p`: remove the file at `p`. -/
def unlink (fs : FS) (p : String) : FS :=
  fs.filter (fun e => e.1 != p)

/-- `os.rename src dst` (atomic replace; `src` always exists at the call
site in `write_data_cache`, so the missing-source error case is a no-op). -/
def renameFile (fs : FS) (src dst : String) : FS :=
  match lookupFS fs src with
  | some c => setFile (unlink fs src) dst c
  | Option.none => fs

/-- `source_dir / path`. -/
def joinPath (dir p : String) : String := dir ++ "/" ++ p

/-- `read_data_cache(cache_key, path, pickled=..., source_dir=...)`.  Returns
the Python value produced by the source: the unpickled object (or the raw
remaining bytes when `pickled` is false) on a key-prefix match, and `None`
(the implicit fall-through value) otherwise; unpickling failures are logged
and swallowed, also yielding `None`. -/
def read_data_cache (fs : FS) (cache_key : Bytes) (source_dir path : String)
    (pickled : Bool) : PyObj :=
  let full_path := joinPath source_dir path
  match lookupFS fs full_path with
  | Option.none => PyObj.none
  | some data =>
    let src_hash := data.take cache_key.length
    if src_hash = cache_key then
      if pickled then
        match loads (data.drop cache_key.length) with
        | some v => v
        | Option.none => PyObj.none
      else PyObj.bytes (data.drop cache_key.length)
    else PyObj.none

/-- The bytes `write_data_cache` feeds to the temporary file: the cache key
followed by the pickled object (maximum protocol) or its raw bytes.  With
`pickled = false` the source requires `obj` to already be a bytes object
(anything else raises, which the failure-injection parameter of
`write_data_cache` represents). -/
def writePayload (obj : PyObj) (cache_key : Bytes) (pickled : Bool) : Bytes :=
  cache_key ++ (if pickled then dumps obj else
    match obj with
    | PyObj.bytes bs => bs
    | _ => [])

/-- `write_data_cache(obj, cache_key, path, pickled=..., target_dir=...)`.
`tmp` is the fresh name chosen by `NamedTemporaryFile` in the destination
directory.  `fail = some k` injects an arbitrary failure after `k` bytes of
the temporary file were written: the source then unlinks the temporary file
(best effort) and re-raises.  `fail = Option.none` is the success path: the
temporary file is renamed onto `full_path`.  Returns the resulting
filesystem and whether an exception propagated to the caller. -/
def write_data_cache (fs : FS) (obj : PyObj) (cache_key : Bytes)
    (target_dir path tmp : String) (pickled : Bool) (fail : Option Nat) :
    FS × Bool :=
  let full_path := joinPath target_dir path
  let payload := writePayload obj cache_key pickled
  match fail with
  | Option.none =>
    let fs1 := setFile fs tmp payload
    (renameFile fs1 tmp full_path, false)
  | some k =>
    let fs1 := setFile fs tmp (payload.take k)
    (unlink fs1 tmp, true)

theorem lookupFS_setFile_self (fs : FS) (p : String) (c : Bytes) :
    lookupFS (setFile fs p c) p = some c := by
  simp [lookupFS, setFile, List.find?]

theorem lookupFS_setFile_ne (fs : FS) (p q : String) (c : Bytes)
    (h : q ≠ p) : lookupFS (setFile fs p c) q = lookupFS fs q := by
  have hpq : (p == q) = false := by
    simp only [beq_eq_false_iff_ne, ne_eq]
    exact fun hc => h hc.symm
  simp only [lookupFS, setFile, List.find?, hpq]
  induction fs with
  | nil => rfl
  | cons e rest ih =>
    by_cases he : e.1 = p
    · have h1 : (e.1 != p) = false := by simp [he]
      have h2 : (e.1 == q) = false := by
        simp only [beq_eq_false_iff_ne, ne_eq, he]
        exact fun hc => h hc.symm
      simp only [List.filter, h1, List.find?, h2] at ih ⊢
      exact ih
    · have h1 : (e.1 != p) = true := by simp [he]
      simp only [List.filter, h1, List.find?] at ih ⊢
      cases hq : (e.1 == q) with
      | true => rfl
      | false => exact ih

theorem lookupFS_unlink_self (fs : FS) (p : String) :
    lookupFS (unlink fs p) p = Option.none := by
  simp only [lookupFS, unlink, Option.map_eq_none']
  apply List.find?_eq_none.2
  intro e he
  have := (List.mem_filter.1 he).2
  simp only [bne_iff_ne, ne_eq] at this
  simp [this]

theorem lookupFS_unlink_ne (fs : FS) (p q : String) (h : q ≠ p) :
    lookupFS (unlink fs p) q = lookupFS fs q := by
  simp only [lookupFS, unlink]
  induction fs with
  | nil => rfl
  | cons e rest ih =>
    by_cases he : e.1 = p
    · have h1 : (e.1 != p) = false := by simp [he]
      have h2 : (e.1 == q) = false := by
        simp only [beq_eq_false_iff_ne, ne_eq, he]
        exact fun hc => h hc.symm
      simp only [List.filter, h1, List.find?, h2] at ih ⊢
      exact ih
    · have h1 : (e.1 != p) = true := by simp [he]
      simp only [List.filter, h1, List.find?] at ih ⊢
      cases hq : (e.1 == q) with
      | true => rfl
      | false => exact ih

/-- Shared helper: a successful pickled write followed by a read with the
same key and path yields the written object back. -/
theorem read_after_write (fs : FS) (obj : PyObj) (cache_key : Bytes)
    (dir path tmp : String) :
    read_data_cache
      (write_data_cache fs obj cache_key dir path tmp true Option.none).1
      cache_key dir path true = obj := by
  have hpay : writePayload obj cache_key true = cache_key ++ dumps obj := by
    simp [writePayload]
  simp only [write_data_cache, renameFile, lookupFS_setFile_self]
  simp only [read_data_cache, lookupFS_setFile_self, hpay]
  rw [List.take_left, List.drop_left]
  simp [loads_dumps]

/-- C1: for every object `obj`, cache key bytes and relative path, writing
with `write_data_cache` (pickled, fixed target directory) and then reading
with `read_data_cache` (same key, path, flag and directory) returns a value
equal to `obj`. -/
theorem write_then_read_roundtrip (fs : FS) (obj : PyObj) (cache_key : Bytes)
    (dir path tmp : String) :
    read_data_cache
      (write_data_cache fs obj cache_key dir path tmp true Option.none).1
      cache_key dir path true = obj :=
  read_after_write fs obj cache_key dir path tmp

/-- C2: a failure injected at any point while writing the temporary file
leaves no residual temporary file, leaves the destination binding unchanged
(no partial file ever visible at `full_path`), and re-raises; on success the
temporary file is renamed onto `full_path`, replacing any prior contents,
and no temporary file remains. -/
theorem write_data_cache_atomic (fs : FS) (obj : PyObj) (cache_key : Bytes)
    (dir path tmp : String) (pickled : Bool)
    (htmp : tmp ≠ joinPath dir path) :
    (∀ k,
      (write_data_cache fs obj cache_key dir path tmp pickled (some k)).2
        = true ∧
      lookupFS (write_data_cache fs obj cache_key dir path tmp pickled
        (some k)).1 tmp = Option.none ∧
      lookupFS (write_data_cache fs obj cache_key dir path tmp pickled
        (some k)).1 (joinPath dir path) = lookupFS fs (joinPath dir path)) ∧
    ((write_data_cache fs obj cache_key dir path tmp pickled Option.none).2
        = false ∧
     lookupFS (write_data_cache fs obj cache_key dir path tmp pickled
       Option.none).1 (joinPath dir path)
         = some (writePayload obj cache_key pickled) ∧
     lookupFS (write_data_cache fs obj cache_key dir path tmp pickled
       Option.none).1 tmp = Option.none) := by
  have hne : joinPath dir path ≠ tmp := fun h => htmp h.symm
  constructor
  · intro k
    refine ⟨rfl, ?_, ?_⟩
    · simp only [write_data_cache]
      exact lookupFS_unlink_self _ tmp
    · simp only [write_data_cache]
      rw [lookupFS_unlink_ne _ _ _ hne, lookupFS_setFile_ne _ _ _ _ hne]
  · refine ⟨rfl, ?_, ?_⟩
    · simp only [write_data_cache, renameFile, lookupFS_setFile_self]
    · simp only [write_data_cache, renameFile, lookupFS_setFile_self]
      rw [lookupFS_setFile_ne _ _ _ _ htmp]
      exact lookupFS_unlink_self _ tmp

theorem write_data_cache_atomic_witness :
    ("d/tmp1" ≠ joinPath "d" "p") ∧
    ((∀ k,
      (write_data_cache [(joinPath "d" "p", [9])] (PyObj.nat 5) [7]
        "d" "p" "d/tmp1" true (some k)).2 = true ∧
      lookupFS (write_data_cache [(joinPath "d" "p", [9])] (PyObj.nat 5) [7]
        "d" "p" "d/tmp1" true (some k)).1 "d/tmp1" = Option.none ∧
      lookupFS (write_data_cache [(joinPath "d" "p", [9])] (PyObj.nat 5) [7]
        "d" "p" "d/tmp1" true (some k)).1 (joinPath "d" "p")
          = lookupFS [(joinPath "d" "p", [9])] (joinPath "d" "p")) ∧
    ((write_data_cache [(joinPath "d" "p", [9])] (PyObj.nat 5) [7]
        "d" "p" "d/tmp1" true Option.none).2 = false ∧
     lookupFS (write_data_cache [(joinPath "d" "p", [9])] (PyObj.nat 5) [7]
        "d" "p" "d/tmp1" true Option.none).1 (joinPath "d" "p")
          = some (writePayload (PyObj.nat 5) [7] true) ∧
     lookupFS (write_data_cache [(joinPath "d" "p", [9])] (PyObj.nat 5) [7]
        "d" "p" "d/tmp1" true Option.none).1 "d/tmp1" = Option.none)) :=
  ⟨by decide, write_data_cache_atomic [(joinPath "d" "p", [9])]
    (PyObj.nat 5) [7] "d" "p" "d/tmp1" true (by decide)⟩

/-- C3 counterexample: a cache file whose stored key matches and whose
payload deserializes successfully (to a pickled `None`) makes
`read_data_cache` return the absent value `None` even though none of the
three enumerated cases (missing file, key mismatch, failed deserialization)
holds, so the claimed enumeration is not exact. -/
theorem read_data_cache_absent_not_exact :
    read_data_cache [("d/p", 7 :: dumps PyObj.none)] [7] "d" "p" true
      = PyObj.none ∧
    lookupFS [("d/p", 7 :: dumps PyObj.none)] (joinPath "d" "p")
      = some (7 :: dumps PyObj.none) ∧
    (7 :: dumps PyObj.none).take ([7] : Bytes).length = [7] ∧
    loads ((7 :: dumps PyObj.none).drop ([7] : Bytes).length)
      = some PyObj.none := by
  refine ⟨by decide, by decide, by decide, by decide⟩

/-- C3 amended: `read_data_cache` never raises and returns the absent value
`None` exactly when the file is missing, the stored key prefix does not
match, or (when pickled) the remainder fails to deserialize, or — the case
the original claim misses — the remainder deserializes to `None` itself. -/
theorem read_data_cache_absent_iff (fs : FS) (cache_key : Bytes)
    (dir path : String) (pickled : Bool) :
    read_data_cache fs cache_key dir path pickled = PyObj.none ↔
      (lookupFS fs (joinPath dir path) = Option.none ∨
       (∃ data, lookupFS fs (joinPath dir path) = some data ∧
          data.take cache_key.length ≠ cache_key) ∨
       (pickled = true ∧ ∃ data, lookupFS fs (joinPath dir path) = some data ∧
          data.take cache_key.length = cache_key ∧
          (loads (data.drop cache_key.length) = Option.none ∨
           loads (data.drop cache_key.length) = some PyObj.none))) := by
  cases hl : lookupFS fs (joinPath dir path) with
  | none => simp [read_data_cache, hl]
  | some data =>
    by_cases hk : data.take cache_key.length = cache_key
    · cases hp : pickled with
      | false => simp [read_data_cache, hl, hk, hp]
      | true =>
        cases hload : loads (data.drop cache_key.length) with
        | none => simp [read_data_cache, hl, hk, hp, hload]
        | some v =>
          simp only [read_data_cache, hl, hk, hp, hload]
          cases v <;> simp [hk, hload]
    · simp [read_data_cache, hl, hk]

/-- C10: a cached `None` is indistinguishable from a cache miss: after a
pickled `write_data_cache` of `None`, `read_data_cache` returns exactly the
value (`None`) it also returns on a missing file. -/
theorem cached_none_is_cache_miss (fs fsmiss : FS) (cache_key : Bytes)
    (dir path tmp : String)
    (hmiss : lookupFS fsmiss (joinPath dir path) = Option.none) :
    read_data_cache
      (write_data_cache fs PyObj.none cache_key dir path tmp true
        Option.none).1 cache_key dir path true = PyObj.none ∧
    read_data_cache fsmiss cache_key dir path true = PyObj.none :=
  ⟨read_after_write fs PyObj.none cache_key dir path tmp, by
    simp [read_data_cache, hmiss]⟩

theorem cached_none_is_cache_miss_witness :
    lookupFS [] (joinPath "d" "p") = Option.none ∧
    (read_data_cache
      (write_data_cache [] PyObj.none [7] "d" "p" "d/t" true
        Option.none).1 [7] "d" "p" true = PyObj.none ∧
     read_data_cache [] [7] "d" "p" true = PyObj.none) :=
  ⟨rfl, cached_none_is_cache_miss [] [] [7] "d" "p" "d/t" rfl⟩

/-- The single error kind of the module (`MetadataError`). -/
structure MetadataError where
  msg : String
  deriving DecidableEq, Repr

/-- `get_build_metadata_value(prop)`: the environment variable named by the
fixed prefixed name, when present and non-empty (Python truthiness of a
string), else the embedded build-metadata record's attribute `prop`
(`meta`, covering both `ImportError` and `AttributeError` as absence), else
a `MetadataError`. -/
def get_build_metadata_value (env meta : String → Option String)
    (prop : String) : Except MetadataError String :=
  match env ("_EDGEDB_BUILDMETA_" ++ prop) with
  | some v =>
    if v = "" then
      match meta prop with
      | some w => Except.ok w
      | Option.none =>
        Except.error ⟨"could not find " ++ prop ++ " in build metadata"⟩
    else Except.ok v
  | Option.none =>
    match meta prop with
    | some w => Except.ok w
    | Option.none =>
      Except.error ⟨"could not find " ++ prop ++ " in build metadata"⟩

/-- C6: the environment override is returned verbatim whenever present and
non-empty (even if the embedded record defines `prop`); otherwise the
embedded record value is returned when present; and the lookup fails with
`MetadataError` exactly when neither source yields a value. -/
theorem get_build_metadata_value_spec (env meta : String → Option String)
    (prop : String) :
    (∀ v, env ("_EDGEDB_BUILDMETA_" ++ prop) = some v → v ≠ "" →
      get_build_metadata_value env meta prop = Except.ok v) ∧
    ((env ("_EDGEDB_BUILDMETA_" ++ prop) = Option.none ∨
      env ("_EDGEDB_BUILDMETA_" ++ prop) = some "") →
      ∀ w, meta prop = some w →
        get_build_metadata_value env meta prop = Except.ok w) ∧
    ((∃ e, get_build_metadata_value env meta prop = Except.error e) ↔
      ((env ("_EDGEDB_BUILDMETA_" ++ prop) = Option.none ∨
        env ("_EDGEDB_BUILDMETA_" ++ prop) = some "") ∧
       meta prop = Option.none)) := by
  refine ⟨?_, ?_, ?_⟩
  · intro v hv hne
    simp [get_build_metadata_value, hv, hne]
  · rintro (henv | henv) w hw <;> simp [get_build_metadata_value, henv, hw]
  · cases henv : env ("_EDGEDB_BUILDMETA_" ++ prop) with
    | none =>
      cases hmeta : meta prop with
      | none => simp [get_build_metadata_value, henv, hmeta]
      | some w => simp [get_build_metadata_value, henv, hmeta]
    | some v =>
      by_cases hv : v = ""
      · subst hv
        cases hmeta : meta prop with
        | none => simp [get_build_metadata_value, henv, hmeta]
        | some w => simp [get_build_metadata_value, henv, hmeta]
      · simp [get_build_metadata_value, henv, hv]

theorem get_build_metadata_value_spec_witness :
    ((fun _ : String => some "override") ("_EDGEDB_BUILDMETA_" ++ "X")
      = some "override") ∧
    ("override" : String) ≠ "" ∧
    get_build_metadata_value (fun _ => some "override")
      (fun _ => some "embedded") "X" = Except.ok "override" :=
  ⟨rfl, by decide,
    (get_build_metadata_value_spec (fun _ => some "override")
      (fun _ => some "embedded") "X").1 "override" rfl (by decide)⟩

/-- `VersionStage` (an `IntEnum` in the source; `value` carries the numeric
enum values). -/
inductive VersionStage where
  | DEV
  | ALPHA
  | BETA
  | RC
  | FINAL
  deriving DecidableEq, Repr

/-- The `IntEnum` numeric values of the stages. -/
def VersionStage.value : VersionStage → Nat
  | VersionStage.DEV => 0
  | VersionStage.ALPHA => 10
  | VersionStage.BETA => 20
  | VersionStage.RC => 30
  | VersionStage.FINAL => 40

/-- `self.stage.name.lower()`. -/
def VersionStage.nameLower : VersionStage → String
  | VersionStage.DEV => "dev"
  | VersionStage.ALPHA => "alpha"
  | VersionStage.BETA => "beta"
  | VersionStage.RC => "rc"
  | VersionStage.FINAL => "final"

/-- The `Version` named tuple. -/
structure Version where
  major : Nat
  minor : Nat
  stage : VersionStage
  stage_no : Nat
  localSegs : List String
  deriving DecidableEq, Repr

/-- `Version.__str__`. -/
def Version.toStr (v : Version) : String :=
  let ver := toString v.major ++ "." ++ toString v.minor
  let ver := if v.stage = VersionStage.FINAL then ver
    else ver ++ "-" ++ v.stage.nameLower ++ "." ++ toString v.stage_no
  if v.localSegs = [] then ver
  else ver ++ "+" ++ String.intercalate "." v.localSegs

/-- C8: the canonical rendering is exactly `"{major}.{minor}"` iff the stage
is FINAL and there are no local segments; a non-FINAL stage appends
`"-{lowercase stage name}.{stage_no}"`; non-empty local segments append
`"+seg1.seg2..."` regardless of stage. -/
theorem version_str_spec (major minor : Nat) (stage : VersionStage)
    (stage_no : Nat) (localSegs : List String) :
    (Version.toStr ⟨major, minor, stage, stage_no, localSegs⟩
        = toString major ++ "." ++ toString minor ↔
      (stage = VersionStage.FINAL ∧ localSegs = [])) ∧
    (stage ≠ VersionStage.FINAL →
      Version.toStr ⟨major, minor, stage, stage_no, localSegs⟩
        = toString major ++ "." ++ toString minor ++ "-" ++ stage.nameLower
            ++ "." ++ toString stage_no
          ++ (if localSegs = [] then "" else
              "+" ++ String.intercalate "." localSegs)) ∧
    (localSegs ≠ [] →
      Version.toStr ⟨major, minor, stage, stage_no, localSegs⟩
        = toString major ++ "." ++ toString minor
            ++ (if stage = VersionStage.FINAL then "" else
                "-" ++ stage.nameLower ++ "." ++ toString stage_no)
          ++ "+" ++ String.intercalate "." localSegs) := by
  refine ⟨⟨?_, ?_⟩, ?_, ?_⟩
  · intro h
    have hlen := congrArg String.length h
    have hname : 0 < stage.nameLower.length := by cases stage <;> decide
    have hdot : ("." : String).length = 1 := rfl
    have hdash : ("-" : String).length = 1 := rfl
    have hplus : ("+" : String).length = 1 := rfl
    by_cases hst : stage = VersionStage.FINAL
    · by_cases hl : localSegs = []
      · exact ⟨hst, hl⟩
      · exfalso
        simp only [Version.toStr, hst, hl, if_true, if_false, ite_true,
          ite_false, if_neg hl, String.length_append, hdot, hplus] at hlen
        omega
    · exfalso
      by_cases hl : localSegs = [] <;>
        simp only [Version.toStr, if_neg hst, hl, if_true, if_false,
          ite_true, ite_false, String.length_append, hdot,
          hdash, hplus] at hlen <;>
        omega
  · rintro ⟨h1, h2⟩
    simp [Version.toStr, h1, h2]
  · intro hst
    by_cases hl : localSegs = [] <;>
      simp [Version.toStr, hst, hl, String.append_assoc]
  · intro hl
    by_cases hst : stage = VersionStage.FINAL <;>
      simp [Version.toStr, hst, hl, String.append_assoc]

theorem version_str_spec_witness :
    (VersionStage.BETA ≠ VersionStage.FINAL) ∧
    Version.toStr ⟨1, 2, VersionStage.BETA, 3, ["x", "y"]⟩
      = toString 1 ++ "." ++ toString 2 ++ "-" ++ VersionStage.BETA.nameLower
          ++ "." ++ toString 3
        ++ (if (["x", "y"] : List String) = [] then "" else
            "+" ++ String.intercalate "." ["x", "y"]) :=
  ⟨by decide, (version_str_spec 1 2 VersionStage.BETA 3 ["x", "y"]).2.1
    (by decide)⟩

/-- The foreign (packaging) version representation consumed by
`parse_version` through its `_version` attribute: release numbers, an
optional pre-release marker (one-letter stage code and number), an optional
dev-release marker (its numeric component, `v.dev[1]`), and local-identifier
segments (`v.local`, empty when absent).  The source indexes `release[0]`
and `release[1]`; callers guarantee at least two release components, which
the model reads with a 0 default. -/
structure PackagingVersion where
  release : List Nat
  pre : Option (String × Nat)
  dev : Option Nat
  localSegs : List String
  deriving DecidableEq, Repr

/-- `local.extend(['dev', str(v.dev[1])])` when a dev marker is present. -/
def devLocalSegs : Option Nat → List String
  | some d => ["dev", toString d]
  | Option.none => []

/-- `parse_version(ver)`. -/
def parse_version (v : PackagingVersion) : Except MetadataError Version :=
  match v.pre with
  | some pre =>
    if pre.1 = "a" then
      Except.ok ⟨v.release.getD 0 0, v.release.getD 1 0, VersionStage.ALPHA,
        pre.2, devLocalSegs v.dev ++ v.localSegs⟩
    else if pre.1 = "b" then
      Except.ok ⟨v.release.getD 0 0, v.release.getD 1 0, VersionStage.BETA,
        pre.2, devLocalSegs v.dev ++ v.localSegs⟩
    else if pre.1 = "c" then
      Except.ok ⟨v.release.getD 0 0, v.release.getD 1 0, VersionStage.RC,
        pre.2, devLocalSegs v.dev ++ v.localSegs⟩
    else
      Except.error ⟨"cannot determine release stage from version"⟩
  | Option.none =>
    match v.dev with
    | some d =>
      Except.ok ⟨v.release.getD 0 0, v.release.getD 1 0, VersionStage.DEV,
        d, v.localSegs⟩
    | Option.none =>
      Except.ok ⟨v.release.getD 0 0, v.release.getD 1 0, VersionStage.FINAL,
        0, v.localSegs⟩

/-- C7: pre-release letters a/b/c map to ALPHA/BETA/RC with `stage_no` the
pre-release number and dev-derived segments `"dev", str(dev)` prepended to
the foreign local segments; any other letter raises `MetadataError`; a dev
marker alone gives stage DEV with the dev number; neither marker gives FINAL
with `stage_no` 0; foreign local segments always follow the dev-derived
ones in order. -/
theorem parse_version_spec (v : PackagingVersion) :
    (∀ n, v.pre = some ("a", n) →
      parse_version v = Except.ok ⟨v.release.getD 0 0, v.release.getD 1 0,
        VersionStage.ALPHA, n, devLocalSegs v.dev ++ v.localSegs⟩) ∧
    (∀ n, v.pre = some ("b", n) →
      parse_version v = Except.ok ⟨v.release.getD 0 0, v.release.getD 1 0,
        VersionStage.BETA, n, devLocalSegs v.dev ++ v.localSegs⟩) ∧
    (∀ n, v.pre = some ("c", n) →
      parse_version v = Except.ok ⟨v.release.getD 0 0, v.release.getD 1 0,
        VersionStage.RC, n, devLocalSegs v.dev ++ v.localSegs⟩) ∧
    (∀ letter n, v.pre = some (letter, n) →
      letter ≠ "a" → letter ≠ "b" → letter ≠ "c" →
      ∃ e, parse_version v = Except.error e) ∧
    (v.pre = Option.none → ∀ d, v.dev = some d →
      parse_version v = Except.ok ⟨v.release.getD 0 0, v.release.getD 1 0,
        VersionStage.DEV, d, v.localSegs⟩) ∧
    (v.pre = Option.none → v.dev = Option.none →
      parse_version v = Except.ok ⟨v.release.getD 0 0, v.release.getD 1 0,
        VersionStage.FINAL, 0, v.localSegs⟩) := by
  refine ⟨?_, ?_, ?_, ?_, ?_, ?_⟩
  · intro n h
    simp [parse_version, h]
  · intro n h
    simp [parse_version, h]
  · intro n h
    simp [parse_version, h]
  · intro letter n h ha hb hc
    refine ⟨⟨"cannot determine release stage from version"⟩, ?_⟩
    simp [parse_version, h, ha, hb, hc]
  · intro hpre d hdev
    simp [parse_version, hpre, hdev]
  · intro hpre hdev
    simp [parse_version, hpre, hdev]

theorem parse_version_spec_witness :
    (⟨[3, 4], some ("a", 1), some 5, ["x"]⟩ : PackagingVersion).pre
      = some ("a", 1) ∧
    parse_version ⟨[3, 4], some ("a", 1), some 5, ["x"]⟩
      = Except.ok ⟨3, 4, VersionStage.ALPHA, 1, ["dev", "5", "x"]⟩ :=
  ⟨rfl, by
    have h := (parse_version_spec ⟨[3, 4], some ("a", 1), some 5, ["x"]⟩).1
      1 rfl
    exact h⟩

/-- The dev-mode error of `get_pg_config_path` (instructing the user to run
the dev setup step, pip install -e .). -/
def devModeErr : MetadataError :=
  ⟨"DEV mode: Could not find PostgreSQL build, run pip install -e ."⟩

/-- `get_pg_config_path()`.  `devMode` is the external `is_in_dev_mode()`
collaborator, `is_file` the filesystem predicate `Path.is_file`,
`devPgConfig` the conventional build-output path derived from the package
location (`root / build / postgres / install / bin / pg_config`, resolved),
and `env`/`meta` the metadata accessor's two sources. -/
def get_pg_config_path (devMode : Bool) (is_file : String → Bool)
    (devPgConfig : String) (env meta : String → Option String) :
    Except MetadataError String :=
  if devMode then
    let pg0 := devPgConfig
    let pg1 := if is_file pg0 then pg0
      else match get_build_metadata_value env meta "PG_CONFIG_PATH" with
        | Except.ok p => p
        | Except.error _ => pg0
    if is_file pg1 then Except.ok pg1 else Except.error devModeErr
  else
    match get_build_metadata_value env meta "PG_CONFIG_PATH" with
    | Except.error e => Except.error e
    | Except.ok p =>
      if is_file p then Except.ok p
      else Except.error ⟨"invalid pg_config path: " ++ p
        ++ ": file does not exist or is not a regular file"⟩

/-- C9: in development mode the conventional build-output path is used when
it is a regular file, else the metadata accessor's PG_CONFIG_PATH when that
is a regular file, else a `MetadataError` instructing the dev setup step
(also when the accessor itself fails); in non-development mode the path
comes solely from the accessor (its failure propagates) and a
`MetadataError` naming the attempted path is raised unless it references an
existing regular file. -/
theorem get_pg_config_path_spec (devMode : Bool) (is_file : String → Bool)
    (devPgConfig : String) (env meta : String → Option String) :
    (devMode = true → is_file devPgConfig = true →
      get_pg_config_path devMode is_file devPgConfig env meta
        = Except.ok devPgConfig) ∧
    (devMode = true → is_file devPgConfig = false →
      ∀ p, get_build_metadata_value env meta "PG_CONFIG_PATH" = Except.ok p →
        is_file p = true →
        get_pg_config_path devMode is_file devPgConfig env meta
          = Except.ok p) ∧
    (devMode = true → is_file devPgConfig = false →
      (∀ p, get_build_metadata_value env meta "PG_CONFIG_PATH"
          = Except.ok p → is_file p = false →
        get_pg_config_path devMode is_file devPgConfig env meta
          = Except.error devModeErr) ∧
      (∀ e, get_build_metadata_value env meta "PG_CONFIG_PATH"
          = Except.error e →
        get_pg_config_path devMode is_file devPgConfig env meta
          = Except.error devModeErr)) ∧
    (devMode = false →
      ∀ e, get_build_metadata_value env meta "PG_CONFIG_PATH"
          = Except.error e →
        get_pg_config_path devMode is_file devPgConfig env meta
          = Except.error e) ∧
    (devMode = false →
      ∀ p, get_build_metadata_value env meta "PG_CONFIG_PATH" = Except.ok p →
        is_file p = true →
        get_pg_config_path devMode is_file devPgConfig env meta
          = Except.ok p) ∧
    (devMode = false →
      ∀ p, get_build_metadata_value env meta "PG_CONFIG_PATH" = Except.ok p →
        is_file p = false →
        ∃ e, get_pg_config_path devMode is_file devPgConfig env meta
          = Except.error e ∧
          ∃ s t, e.msg = s ++ p ++ t) := by
  refine ⟨?_, ?_, ?_, ?_, ?_, ?_⟩
  · intro hd hf
    simp [get_pg_config_path, hd, hf]
  · intro hd hf p hp hpf
    simp [get_pg_config_path, hd, hf, hp, hpf]
  · intro hd hf
    constructor
    · intro p hp hpf
      simp [get_pg_config_path, hd, hf, hp, hpf]
    · intro e he
      simp [get_pg_config_path, hd, hf, he]
  · intro hd e he
    simp [get_pg_config_path, hd, he]
  · intro hd p hp hpf
    simp [get_pg_config_path, hd, hp, hpf]
  · intro hd p hp hpf
    refine ⟨⟨"invalid pg_config path: " ++ p
      ++ ": file does not exist or is not a regular file"⟩, ?_,
      "invalid pg_config path: ",
      ": file does not exist or is not a regular file", rfl⟩
    simp [get_pg_config_path, hd, hp, hpf]

theorem get_pg_config_path_spec_witness :
    (true : Bool) = true ∧
    (fun _ : String => true) "pgc" = true ∧
    get_pg_config_path true (fun _ => true) "pgc"
      (fun _ => Option.none) (fun _ => Option.none) = Except.ok "pgc" :=
  ⟨rfl, rfl, (get_pg_config_path_spec true (fun _ => true) "pgc"
    (fun _ => Option.none) (fun _ => Option.none)).1 rfl rfl⟩

/-- Truncation to a 32-bit word. -/
def w32 (n : Nat) : Nat := n % 4294967296

/-- 32-bit left rotation (operands below 2^32). -/
def rotl (s n : Nat) : Nat := w32 ((n <<< s) ||| (n >>> (32 - s)))

/-- SHA-1 round constants. -/
def sha1K (i : Nat) : Nat :=
  if i < 20 then 1518500249
  else if i < 40 then 1859775393
  else if i < 60 then 2400959708
  else 3395469782

/-- SHA-1 round functions (the choose function written with the standard
xor identity, valid for 32-bit operands). -/
def sha1F (i b c d : Nat) : Nat :=
  if i < 20 then d ^^^ (b &&& (c ^^^ d))
  else if i < 40 then b ^^^ c ^^^ d
  else if i < 60 then (b &&& c) ||| (b &&& d) ||| (c &&& d)
  else b ^^^ c ^^^ d

/-- Big-endian 32-bit words of a byte string. -/
def beWords : Bytes → List Nat
  | a :: b :: c :: d :: rest =>
    (((a * 256 + b) * 256 + c) * 256 + d) :: beWords rest
  | _ => []

/-- Big-endian bytes of a 32-bit word. -/
def wordBytes (w : Nat) : Bytes :=
  [w / 16777216 % 256, w / 65536 % 256, w / 256 % 256, w % 256]

/-- Big-endian bytes of the 64-bit message bit length. -/
def lenBytes64 (n : Nat) : Bytes :=
  [n / 72057594037927936 % 256, n / 281474976710656 % 256,
   n / 1099511627776 % 256, n / 4294967296 % 256,
   n / 16777216 % 256, n / 65536 % 256, n / 256 % 256, n % 256]

/-- SHA-1 message padding to a multiple of 64 bytes. -/
def sha1Pad (msg : Bytes) : Bytes :=
  msg ++ [128] ++ List.replicate ((119 - msg.length % 64) % 64) 0
    ++ lenBytes64 (8 * msg.length)

/-- Extension of the 16 chunk words to 80 round words. -/
def sha1Extend (ws : List Nat) : List Nat :=
  (List.range 64).foldl (fun acc _ =>
    acc ++ [rotl 1 ((acc.getD (acc.length - 3) 0)
      ^^^ (acc.getD (acc.length - 8) 0)
      ^^^ (acc.getD (acc.length - 14) 0)
      ^^^ (acc.getD (acc.length - 16) 0))]) ws

/-- The 80 SHA-1 rounds over one chunk, updating the running hash state. -/
def sha1Rounds (h : Nat × Nat × Nat × Nat × Nat) (ws : List Nat) :
    Nat × Nat × Nat × Nat × Nat :=
  let fin := ws.enum.foldl (fun st iw =>
    let temp := w32 (rotl 5 st.1 + sha1F iw.1 st.2.1 st.2.2.1 st.2.2.2.1
      + st.2.2.2.2 + sha1K iw.1 + iw.2)
    (temp, st.1, rotl 30 st.2.1, st.2.2.1, st.2.2.2.1)) h
  (w32 (h.1 + fin.1), w32 (h.2.1 + fin.2.1), w32 (h.2.2.1 + fin.2.2.1),
   w32 (h.2.2.2.1 + fin.2.2.2.1), w32 (h.2.2.2.2 + fin.2.2.2.2))

/-- The 64-byte chunks of a padded message. -/
def chunks64 : Bytes → List Bytes
  | [] => []
  | a :: rest => ((a :: rest).take 64) :: chunks64 (rest.drop 63)
termination_by l => l.length
decreasing_by
  simp only [List.length_drop, List.length_cons]
  omega

/-- `hashlib.sha1(...).digest()`: the SHA-1 digest (20 bytes) of a byte
string.  Feeding the accumulated bytes once is equivalent to the source's
incremental `h.update` calls. -/
def sha1 (msg : Bytes) : Bytes :=
  let hs := (chunks64 (sha1Pad msg)).foldl
    (fun h chunk => sha1Rounds h (sha1Extend (beWords chunk)))
    (1732584193, 4023233417, 2562383102, 271733878, 3285377520)
  wordBytes hs.1 ++ wordBytes hs.2.1 ++ wordBytes hs.2.2.1
    ++ wordBytes hs.2.2.2.1 ++ wordBytes hs.2.2.2.2

/-- Code-point lexicographic order on character lists: the comparison
Python's `sorted` performs on strings. -/
def charsLe : List Char → List Char → Bool
  | [], _ => true
  | _ :: _, [] => false
  | a :: as, b :: bs =>
    decide (a.toNat < b.toNat)
      || (decide (a.toNat = b.toNat) && charsLe as bs)

/-- Python string comparison `a <= b`. -/
def strLe (a b : String) : Prop := charsLe a.data b.data = true

instance : DecidableRel strLe := fun a b => by
  unfold strLe
  infer_instance

theorem charsLe_total : ∀ a b, charsLe a b = true ∨ charsLe b a = true
  | [], _ => Or.inl rfl
  | _ :: _, [] => Or.inr rfl
  | a :: as, b :: bs => by
    simp only [charsLe, Bool.or_eq_true, Bool.and_eq_true, decide_eq_true_eq]
    rcases Nat.lt_trichotomy a.toNat b.toNat with h | h | h
    · exact Or.inl (Or.inl h)
    · rcases charsLe_total as bs with hr | hr
      · exact Or.inl (Or.inr ⟨h, hr⟩)
      · exact Or.inr (Or.inr ⟨h.symm, hr⟩)
    · exact Or.inr (Or.inl h)

theorem charsLe_trans : ∀ a b c, charsLe a b = true → charsLe b c = true →
    charsLe a c = true
  | [], _, _ => fun _ _ => rfl
  | _ :: _, [], _ => fun h _ => by simp [charsLe] at h
  | _ :: _, _ :: _, [] => fun _ h => by simp [charsLe] at h
  | a :: as, b :: bs, c :: cs => fun h1 h2 => by
    simp only [charsLe, Bool.or_eq_true, Bool.and_eq_true,
      decide_eq_true_eq] at h1 h2 ⊢
    rcases h1 with h1 | ⟨he1, h1⟩ <;> rcases h2 with h2 | ⟨he2, h2⟩
    · exact Or.inl (by omega)
    · exact Or.inl (by omega)
    · exact Or.inl (by omega)
    · exact Or.inr ⟨by omega, charsLe_trans as bs cs h1 h2⟩

theorem charsLe_antisymm : ∀ a b, charsLe a b = true → charsLe b a = true →
    a = b
  | [], [] => fun _ _ => rfl
  | [], _ :: _ => fun _ h => by simp [charsLe] at h
  | _ :: _, [] => fun h _ => by simp [charsLe] at h
  | a :: as, b :: bs => fun h1 h2 => by
    simp only [charsLe, Bool.or_eq_true, Bool.and_eq_true,
      decide_eq_true_eq] at h1 h2
    rcases h1 with h1 | ⟨he1, h1⟩ <;> rcases h2 with h2 | ⟨he2, h2⟩
    · exact absurd h2 (by omega)
    · exact absurd h1 (by omega)
    · exact absurd h1 (by omega)
    · have hc : a = b := Char.eq_of_val_eq (UInt32.ext he1)
      rw [hc, charsLe_antisymm as bs h1 h2]

instance : IsTotal String strLe := ⟨fun a b => charsLe_total a.data b.data⟩

instance : IsTrans String strLe :=
  ⟨fun a b c => charsLe_trans a.data b.data c.data⟩

instance : IsAntisymm String strLe := ⟨fun a b h1 h2 => by
  have hd := charsLe_antisymm a.data b.data h1 h2
  cases a
  cases b
  simp only at hd
  rw [hd]⟩

/-- Python `entry.name.endswith(ext)`. -/
def strEndsWith (s suffix : String) : Bool :=
  List.isSuffixOf suffix.data s.data

/-- A directory entry as seen by `os.scandir`: a regular file with contents,
or a subdirectory with its own listing.  The order of a listing is the
filesystem's enumeration order, which `hash_dirs` must not depend on. -/
inductive Entry where
  | file (name : String) (content : Bytes)
  | dir (name : String) (entries : List Entry)

mutual
def beqEntry : Entry → Entry → Bool
  | Entry.file n c, Entry.file m d => n == m && c == d
  | Entry.dir n l, Entry.dir m k => n == m && beqEntryList l k
  | _, _ => false
def beqEntryList : List Entry → List Entry → Bool
  | [], [] => true
  | a :: as, b :: bs => beqEntry a b && beqEntryList as bs
  | _, _ => false
end

mutual
theorem beqEntry_iff : ∀ a b, beqEntry a b = true ↔ a = b
  | Entry.file n c, Entry.file m d => by simp [beqEntry]
  | Entry.file n c, Entry.dir m k => by simp [beqEntry]
  | Entry.dir n l, Entry.file m d => by simp [beqEntry]
  | Entry.dir n l, Entry.dir m k => by
    simp [beqEntry, beqEntryList_iff l k]
theorem beqEntryList_iff : ∀ a b, beqEntryList a b = true ↔ a = b
  | [], [] => by simp [beqEntryList]
  | [], b :: bs => by simp [beqEntryList]
  | a :: as, [] => by simp [beqEntryList]
  | a :: as, b :: bs => by
    simp [beqEntryList, beqEntry_iff a b, beqEntryList_iff as bs]
end

instance : DecidableEq Entry := fun a b => decidable_of_iff _ (beqEntry_iff a b)

/-- `entry.name`. -/
def entryName : Entry → String
  | Entry.file n _ => n
  | Entry.dir n _ => n

mutual
/-- `hash_dir(dirname, ext, paths)` restricted to one entry of `dirname`:
a regular file contributes its path when its name ends with `ext`; a
subdirectory is recursed into unconditionally. -/
def collectEntry (ext dirname : String) : Entry → List String
  | Entry.file n _ =>
    if strEndsWith n ext then [joinPath dirname n] else []
  | Entry.dir n l => collectList ext (joinPath dirname n) l
/-- `hash_dir(dirname, ext, paths)`: the matched file paths under a listing,
in enumeration order. -/
def collectList (ext dirname : String) : List Entry → List String
  | [] => []
  | e :: es => collectEntry ext dirname e ++ collectList ext dirname es
end

mutual
/-- The (path, contents) pairs of all regular files under one entry: the
filesystem view that `open(path, 'rb')` reads from during hashing. -/
def filesEntry (dirname : String) : Entry → List (String × Bytes)
  | Entry.file n c => [(joinPath dirname n, c)]
  | Entry.dir n l => filesList (joinPath dirname n) l
def filesList (dirname : String) : List Entry → List (String × Bytes)
  | [] => []
  | e :: es => filesEntry dirname e ++ filesList dirname es
end

/-- Ordering of entries by name, used only to express that two listings are
the same directory contents enumerated in different orders. -/
def nameLe (a b : Entry) : Prop := strLe (entryName a) (entryName b)

instance : DecidableRel nameLe := fun a b => by
  unfold nameLe
  infer_instance

mutual
/-- Canonical form of an entry: every directory listing recursively sorted
by name.  Two trees denote the same directory contents in different
enumeration orders exactly when their canonical forms coincide (for
filesystem-realisable trees, whose sibling names are distinct). -/
def canonEntry : Entry → Entry
  | Entry.file n c => Entry.file n c
  | Entry.dir n l => Entry.dir n (List.insertionSort nameLe (canonList l))
def canonList : List Entry → List Entry
  | [] => []
  | e :: es => canonEntry e :: canonList es
end

/-- Canonical form of a directory listing. -/
def canonEntries (l : List Entry) : List Entry :=
  List.insertionSort nameLe (canonList l)

/-- The input of `hash_dirs`: each `(dirname, ext)` pair together with the
`os.scandir` listing of `dirname`. -/
abbrev DirsInput := List ((String × List Entry) × String)

/-- Canonical form of one `hash_dirs` input pair. -/
def canonPair (p : (String × List Entry) × String) :
    (String × List Entry) × String :=
  ((p.1.1, canonEntries p.1.2), p.2)

/-- The `paths` list accumulated by the `hash_dir` calls, flattened. -/
def pathsOf (dirs : DirsInput) : List String :=
  dirs.flatMap (fun p => collectList p.2 p.1.1 p.1.2)

/-- The filesystem view induced by the scanned trees. -/
def filesOf (dirs : DirsInput) : FS :=
  dirs.flatMap (fun p => filesList p.1.1 p.1.2)

/-- `hash_dirs(dirs)`: collect matched paths across all pairs (appending in
enumeration order), sort the combined list, then feed each file's contents
into a single SHA-1 accumulator in sorted order. -/
def hash_dirs (dirs : DirsInput) : Bytes :=
  let paths := dirs.foldl
    (fun acc p => acc ++ collectList p.2 p.1.1 p.1.2) []
  let sorted := List.insertionSort strLe paths
  sha1 (sorted.foldl
    (fun h p => h ++ (lookupFS (filesOf dirs) p).getD []) [])

/-- The exact byte stream fed to SHA-1 by `hash_dirs`: the concatenation,
in sorted path order, of the matched files' contents. -/
def hashStream (dirs : DirsInput) : Bytes :=
  (List.insertionSort strLe (pathsOf dirs)).flatMap
    (fun p => (lookupFS (filesOf dirs) p).getD [])

theorem foldl_append_eq_flatMap {α β : Type} (l : List α) (f : α → List β) :
    ∀ init : List β,
      l.foldl (fun acc x => acc ++ f x) init = init ++ l.flatMap f := by
  induction l with
  | nil => intro init; simp
  | cons a as ih => intro init; simp [List.foldl, ih]

theorem collectList_eq_flatMap (ext d : String) (l : List Entry) :
    collectList ext d l = l.flatMap (collectEntry ext d) := by
  induction l with
  | nil => rfl
  | cons e es ih => simp [collectList, ih]

theorem collectList_perm_of_perm (ext d : String) {l₁ l₂ : List Entry}
    (h : l₁.Perm l₂) :
    (collectList ext d l₁).Perm (collectList ext d l₂) := by
  rw [collectList_eq_flatMap, collectList_eq_flatMap]
  exact h.flatMap_right _

mutual
theorem collectEntry_canon (ext d : String) :
    ∀ e, (collectEntry ext d (canonEntry e)).Perm (collectEntry ext d e)
  | Entry.file n c => by simp [canonEntry]
  | Entry.dir n l => by
    simp only [canonEntry, collectEntry]
    exact (collectList_perm_of_perm ext (joinPath d n)
      (List.perm_insertionSort nameLe (canonList l))).trans
      (collectList_canon ext (joinPath d n) l)
theorem collectList_canon (ext d : String) :
    ∀ l, (collectList ext d (canonList l)).Perm (collectList ext d l)
  | [] => List.Perm.refl _
  | e :: es => by
    simp only [canonList, collectList]
    exact (collectEntry_canon ext d e).append (collectList_canon ext d es)
end

theorem filesList_eq_flatMap (d : String) (l : List Entry) :
    filesList d l = l.flatMap (filesEntry d) := by
  induction l with
  | nil => rfl
  | cons e es ih => simp [filesList, ih]

theorem filesList_perm_of_perm (d : String) {l₁ l₂ : List Entry}
    (h : l₁.Perm l₂) : (filesList d l₁).Perm (filesList d l₂) := by
  rw [filesList_eq_flatMap, filesList_eq_flatMap]
  exact h.flatMap_right _

mutual
theorem filesEntry_canon (d : String) :
    ∀ e, (filesEntry d (canonEntry e)).Perm (filesEntry d e)
  | Entry.file n c => by simp [canonEntry]
  | Entry.dir n l => by
    simp only [canonEntry, filesEntry]
    exact (filesList_perm_of_perm (joinPath d n)
      (List.perm_insertionSort nameLe (canonList l))).trans
      (filesList_canon (joinPath d n) l)
theorem filesList_canon (d : String) :
    ∀ l, (filesList d (canonList l)).Perm (filesList d l)
  | [] => List.Perm.refl _
  | e :: es => by
    simp only [canonList, filesList]
    exact (filesEntry_canon d e).append (filesList_canon d es)
end

theorem pathsOf_map_canonPair (dirs : DirsInput) :
    (pathsOf (dirs.map canonPair)).Perm (pathsOf dirs) := by
  unfold pathsOf
  rw [List.flatMap_map]
  apply List.Perm.flatMap_left
  intro p _
  simp only [canonPair, Function.comp, canonEntries]
  exact (collectList_perm_of_perm p.2 p.1.1
    (List.perm_insertionSort nameLe (canonList p.1.2))).trans
    (collectList_canon p.2 p.1.1 p.1.2)

theorem filesOf_map_canonPair (dirs : DirsInput) :
    (filesOf (dirs.map canonPair)).Perm (filesOf dirs) := by
  unfold filesOf
  rw [List.flatMap_map]
  apply List.Perm.flatMap_left
  intro p _
  simp only [canonPair, Function.comp, canonEntries]
  exact (filesList_perm_of_perm p.1.1
    (List.perm_insertionSort nameLe (canonList p.1.2))).trans
    (filesList_canon p.1.1 p.1.2)

theorem find_key_of_mem {m : FS} {e : String × Bytes} {p : String}
    (hmem : e ∈ m) (hp : e.1 = p) (hnd : (m.map Prod.fst).Nodup) :
    m.find? (fun x => x.1 == p) = some e := by
  induction m with
  | nil => cases hmem
  | cons a rest ih =>
    have hnd1 : a.1 ∉ rest.map Prod.fst := by
      simp only [List.map_cons, List.nodup_cons] at hnd
      exact hnd.1
    have hnd2 : (rest.map Prod.fst).Nodup := by
      simp only [List.map_cons, List.nodup_cons] at hnd
      exact hnd.2
    rcases List.mem_cons.1 hmem with rfl | hmem2
    · simp [List.find?, hp]
    · have hne : a.1 ≠ p := by
        intro hap
        apply hnd1
        rw [hap, ← hp]
        exact List.mem_map.2 ⟨e, hmem2, rfl⟩
      have hbeq : (a.1 == p) = false := by simp [hne]
      simp only [List.find?, hbeq]
      exact ih hmem2 hnd2

theorem lookupFS_of_perm {m₁ m₂ : FS} (hperm : m₁.Perm m₂)
    (hnd : (m₁.map Prod.fst).Nodup) (p : String) :
    lookupFS m₁ p = lookupFS m₂ p := by
  by_cases hmem : ∃ e ∈ m₁, e.1 = p
  · obtain ⟨e, hem, hep⟩ := hmem
    have hnd₂ : (m₂.map Prod.fst).Nodup :=
      ((hperm.map Prod.fst).nodup_iff).1 hnd
    rw [lookupFS, lookupFS, find_key_of_mem hem hep hnd,
      find_key_of_mem (hperm.subset hem) hep hnd₂]
  · push_neg at hmem
    rw [lookupFS, lookupFS, List.find?_eq_none.2, List.find?_eq_none.2]
    · intro x hx
      simpa using hmem x (hperm.mem_iff.2 hx)
    · intro x hx
      simpa using hmem x hx

theorem hash_dirs_eq_sha1_stream (dirs : DirsInput) :
    hash_dirs dirs = sha1 (hashStream dirs) := by
  simp only [hash_dirs, hashStream, pathsOf,
    foldl_append_eq_flatMap, List.nil_append]

/-- C4: the digest of `hash_dirs` is independent of the filesystem's
enumeration order and of the relative order of the input pairs: two inputs
whose pairs, after recursively name-sorting each listing, are permutations
of each other yield identical digests (for filesystem-realisable inputs,
i.e. distinct file paths), because all matched paths are combined and
sorted before hashing. -/
theorem hash_dirs_order_invariant (dirs₁ dirs₂ : DirsInput)
    (hp : (dirs₁.map canonPair).Perm (dirs₂.map canonPair))
    (hnd : ((filesOf dirs₁).map Prod.fst).Nodup) :
    hash_dirs dirs₁ = hash_dirs dirs₂ := by
  have hmid : (pathsOf (dirs₁.map canonPair)).Perm
      (pathsOf (dirs₂.map canonPair)) := by
    unfold pathsOf
    exact hp.flatMap_right _
  have hpaths : (pathsOf dirs₁).Perm (pathsOf dirs₂) :=
    ((pathsOf_map_canonPair dirs₁).symm.trans hmid).trans
      (pathsOf_map_canonPair dirs₂)
  have hfmid : (filesOf (dirs₁.map canonPair)).Perm
      (filesOf (dirs₂.map canonPair)) := by
    unfold filesOf
    exact hp.flatMap_right _
  have hfiles : (filesOf dirs₁).Perm (filesOf dirs₂) :=
    ((filesOf_map_canonPair dirs₁).symm.trans hfmid).trans
      (filesOf_map_canonPair dirs₂)
  have hsorted : List.insertionSort strLe (pathsOf dirs₁)
      = List.insertionSort strLe (pathsOf dirs₂) :=
    List.eq_of_perm_of_sorted
      ((List.perm_insertionSort _ _).trans
        (hpaths.trans (List.perm_insertionSort _ _).symm))
      (List.sorted_insertionSort _ _) (List.sorted_insertionSort _ _)
  have hfun : (fun p => (lookupFS (filesOf dirs₁) p).getD [])
      = fun p => (lookupFS (filesOf dirs₂) p).getD [] :=
    funext fun p => by rw [lookupFS_of_perm hfiles hnd p]
  rw [hash_dirs_eq_sha1_stream, hash_dirs_eq_sha1_stream]
  unfold hashStream
  rw [hsorted, hfun]


/-- Concrete input: two pairs, listings in one enumeration order. -/
def dirsW1 : DirsInput :=
  [(("r", [Entry.file "b.txt" [1], Entry.file "a.txt" [2]]), ".txt"),
   (("s", [Entry.dir "sub" [Entry.file "c.txt" [3]]]), ".txt")]

/-- The same directory contents: pairs permuted, listings re-enumerated. -/
def dirsW2 : DirsInput :=
  [(("s", [Entry.dir "sub" [Entry.file "c.txt" [3]]]), ".txt"),
   (("r", [Entry.file "a.txt" [2], Entry.file "b.txt" [1]]), ".txt")]

theorem hash_dirs_order_invariant_witness :
    ((dirsW1.map canonPair).Perm (dirsW2.map canonPair)) ∧
    ((filesOf dirsW1).map Prod.fst).Nodup ∧
    hash_dirs dirsW1 = hash_dirs dirsW2 :=
  ⟨by decide, by decide,
    hash_dirs_order_invariant dirsW1 dirsW2 (by decide) (by decide)⟩

/-- One matched file `r/a.txt` with contents `[65]`. -/
def dirsA : DirsInput := [(("r", [Entry.file "a.txt" [65]]), ".txt")]

/-- The same tree with the matched empty file `r/b.txt` added. -/
def dirsB : DirsInput :=
  [(("r", [Entry.file "a.txt" [65], Entry.file "b.txt" []]), ".txt")]

/-- C5 counterexample: adding the matched (empty) regular file `r/b.txt`
does not change the digest, because the hashed stream is the bare
concatenation of the matched files' contents with no separators, so the
claimed sensitivity to every matched file's presence fails. -/
theorem hash_dirs_not_file_sensitive :
    "r/b.txt" ∈ pathsOf dirsB ∧
    "r/b.txt" ∉ pathsOf dirsA ∧
    hash_dirs dirsA = hash_dirs dirsB := by
  refine ⟨by decide, by decide, ?_⟩
  rw [hash_dirs_eq_sha1_stream, hash_dirs_eq_sha1_stream]
  have hs : hashStream dirsA = hashStream dirsB := by decide
  rw [hs]

/-- C5 amended: the digest is a function of the concatenation, in sorted
path order, of the matched files' contents alone; a content change or the
addition/removal of a matched file changes the digest only through this
concatenation (so, e.g., adding an empty matched file never changes it). -/
theorem hash_dirs_eq_of_stream_eq (dirs₁ dirs₂ : DirsInput)
    (h : hashStream dirs₁ = hashStream dirs₂) :
    hash_dirs dirs₁ = hash_dirs dirs₂ := by
  rw [hash_dirs_eq_sha1_stream, hash_dirs_eq_sha1_stream, h]

/-- Two inputs over distinct empty directories: equal (empty) streams. -/
def dirsE1 : DirsInput := [(("r", []), ".txt")]

/-- See `dirsE1`. -/
def dirsE2 : DirsInput := [(("q", []), ".py")]

theorem hash_dirs_eq_of_stream_eq_witness :
    hashStream dirsE1 = hashStream dirsE2 ∧
    hash_dirs dirsE1 = hash_dirs dirsE2 :=
  ⟨by decide, hash_dirs_eq_of_stream_eq dirsE1 dirsE2 (by decide)⟩
